import Mathlib

/-!
# Verification of the PTY terminal-relay server

Shallow embedding of `server.js` of the terminal-relay subsystem
(token codec, WebSocket upgrade authorization, session store with idle
sweep, the start-or-attach route, working-directory resolution, and the
context-relay endpoints), together with proofs about the spec's claims.

Strings from the JavaScript side are modelled as `List Char`; machine
timestamps as `Nat` (milliseconds); JS `number` arithmetic that can see
`NaN`/`Infinity` is modelled explicitly where it matters.  Fallible JS
code (code that can throw) returns `Option`, with `none` for a thrown
exception.
-/

namespace PtyServer

/-! ## JS string and number primitives (over `List Char`) -/

/-- The decimal digit character for `n < 10`, e.g. `digitChar 5 = '5'`. -/
def digitChar (n : Nat) : Char := Char.ofNat (48 + n)

/-- Decimal value of a digit character, `none` for non-digits. -/
def digitVal (c : Char) : Option Nat :=
  if 48 ≤ c.toNat ∧ c.toNat ≤ 57 then some (c.toNat - 48) else none

/-- Decimal rendering of a natural number (JS number-to-string for
non-negative safe integers).  Explicit fuel keeps the recursion
structural so the kernel can evaluate it. -/
def natToCharsAux (fuel : Nat) (n : Nat) : List Char :=
  match fuel with
  | 0 => []
  | fuel + 1 =>
    if n < 10 then [digitChar n]
    else natToCharsAux fuel (n / 10) ++ [digitChar (n % 10)]

/-- Decimal rendering of a natural number; `n + 1` is always enough fuel. -/
def natToChars (n : Nat) : List Char := natToCharsAux (n + 1) n

/-- JS template-literal rendering of an integer. -/
def intToChars (i : Int) : List Char :=
  if i < 0 then '-' :: natToChars i.natAbs else natToChars i.toNat

/-- The whitespace characters skipped by JS `parseInt`. -/
def jsSpace (c : Char) : Bool := c = ' ' || c = '\t' || c = '\n' || c = '\r'

/-- Accumulate leading decimal digits, stopping at the first non-digit
(JS `parseInt` ignores trailing garbage). -/
def parseDigitsAux (acc : Nat) : List Char → Nat
  | [] => acc
  | c :: rest =>
    match digitVal c with
    | some d => parseDigitsAux (10 * acc + d) rest
    | none => acc

/-- `some` of the digit run when the list starts with a digit, else `none`. -/
def parseDigitsHead : List Char → Option Nat
  | [] => none
  | c :: rest => if (digitVal c).isSome then some (parseDigitsAux 0 (c :: rest)) else none

/-- Model of JS `parseInt(s, 10)`: skip leading whitespace, optional
sign, then leading decimal digits; `none` models `NaN`. -/
def parseIntJs (l : List Char) : Option Int :=
  match l.dropWhile jsSpace with
  | [] => none
  | c :: rest =>
    if c = '-' then (parseDigitsHead rest).map (fun n => -(n : Int))
    else if c = '+' then (parseDigitsHead rest).map (fun n => (n : Int))
    else (parseDigitsHead (c :: rest)).map (fun n => (n : Int))

/-- Model of JS `String.prototype.split` with a one-character separator:
`splitOnChar sep l` never returns `[]`, and `splitOnChar sep [] = [[]]`
just as `''.split('.')` is `['']`. -/
def splitOnChar (sep : Char) : List Char → List (List Char)
  | [] => [[]]
  | c :: rest =>
    if c = sep then [] :: splitOnChar sep rest
    else
      match splitOnChar sep rest with
      | h :: tl => (c :: h) :: tl
      | [] => [[c]]

/-- Value of a hexadecimal digit (both cases), `none` otherwise. -/
def hexNibble (c : Char) : Option Nat :=
  if 48 ≤ c.toNat ∧ c.toNat ≤ 57 then some (c.toNat - 48)
  else if 97 ≤ c.toNat ∧ c.toNat ≤ 102 then some (c.toNat - 87)
  else if 65 ≤ c.toNat ∧ c.toNat ≤ 70 then some (c.toNat - 55)
  else none

/-- Model of Node's `Buffer.from(s, 'hex')`: decode pairs of hex digits
into bytes, stopping at the first pair that is not valid hex (a lone
trailing nibble is dropped). -/
def hexDecode : List Char → List Nat
  | c1 :: c2 :: rest =>
    (match hexNibble c1, hexNibble c2 with
     | some a, some b => (16 * a + b) :: hexDecode rest
     | _, _ => [])
  | _ => []

/-- Model of Node's `crypto.timingSafeEqual` on two byte buffers: it
compares buffers of equal length, and THROWS (here `none`) when the
lengths differ. -/
def tsEqual (a b : List Nat) : Option Bool :=
  if a.length = b.length then some (decide (a = b)) else none

/-! ## Token codec (`createToken` / `verifyToken` in `server.js`)

The HMAC-SHA256 hex digest under the server's `SIGN_SECRET` is external
crypto; it is a parameter `hmac : List Char → List Char` of the codec
(the secret is fixed inside it, as in the source where
`crypto.createHmac('sha256', SIGN_SECRET)` closes over the secret). -/

/-- The signed payload `` `pty:${sid}|${exp}` ``. -/
def ptyPayload (sid : List Char) (exp : Int) : List Char :=
  "pty:".toList ++ sid ++ '|' :: intToChars exp

/-- `createToken(sid)`: `exp = Date.now() + TOKEN_TTL`, and the token is
`` `${exp}.${signature}` `` with the signature the HMAC hex digest of the
payload.  `now` is the issuing time and `ttl` the `TOKEN_TTL` config. -/
def createToken (hmac : List Char → List Char) (ttl : Nat) (sid : List Char) (now : Nat) :
    List Char :=
  natToChars (now + ttl) ++ '.' :: hmac (ptyPayload sid ((now + ttl : Nat) : Int))

/-- `verifyToken(sid, token)` at time `now`.  Returns `some b` when the
source returns the boolean `b`, and `none` when the source THROWS (which
happens exactly when `crypto.timingSafeEqual` is reached with buffers of
different lengths). -/
def verifyToken (hmac : List Char → List Char) (sid token : List Char) (now : Nat) :
    Option Bool :=
  if token = [] ∨ sid = [] then some false
  else
    match splitOnChar '.' token with
    | [expStr, signature] =>
      (match parseIntJs expStr with
       | none => some false
       | some exp =>
         if exp < (now : Int) then some false
         else tsEqual (hexDecode signature) (hexDecode (hmac (ptyPayload sid exp))))
    | _ => some false

/-! ## A concrete digest function for witnesses

A small executable stand-in for an HMAC hex digest: it always produces
eight lowercase hex characters.  It is only used to instantiate the
`hmac` parameter in witness theorems; the theorems themselves hold for
every digest function satisfying their stated hypotheses. -/

/-- Lowercase hexadecimal digit character. -/
def hexDigitChar (n : Nat) : Char :=
  if n < 10 then Char.ofNat (48 + n) else Char.ofNat (87 + n)

/-- Fixed-width (8 hex chars) rendering of a value below `2 ^ 32`. -/
def toHex8 (n : Nat) : List Char :=
  [hexDigitChar (n / 268435456 % 16), hexDigitChar (n / 16777216 % 16),
   hexDigitChar (n / 1048576 % 16), hexDigitChar (n / 65536 % 16),
   hexDigitChar (n / 4096 % 16), hexDigitChar (n / 256 % 16),
   hexDigitChar (n / 16 % 16), hexDigitChar (n % 16)]

/-- Toy digest used to instantiate the `hmac` parameter in witnesses. -/
def toyDigest (msg : List Char) : List Char :=
  toHex8 (msg.foldl (fun a c => (a * 131 + c.toNat) % 4294967296) 7)

/-! ## Lemmas about the decimal primitives -/

theorem digitVal_digitChar {n : Nat} (h : n < 10) : digitVal (digitChar n) = some n := by
  interval_cases n <;> decide

theorem digitVal_isSome_toNat {c : Char} (h : (digitVal c).isSome) :
    48 ≤ c.toNat ∧ c.toNat ≤ 57 := by
  unfold digitVal at h
  split at h
  · assumption
  · simp at h

theorem natToCharsAux_ne_nil {fuel n : Nat} (h : n < fuel) : natToCharsAux fuel n ≠ [] := by
  cases fuel with
  | zero => omega
  | succ fuel =>
    unfold natToCharsAux
    split
    · simp
    · simp

theorem natToCharsAux_digits {fuel : Nat} :
    ∀ {n : Nat}, n < fuel → ∀ c ∈ natToCharsAux fuel n, (digitVal c).isSome := by
  induction fuel with
  | zero => intro n h; omega
  | succ fuel ih =>
    intro n h c hc
    unfold natToCharsAux at hc
    split at hc
    · next h10 =>
      simp at hc
      subst hc
      rw [digitVal_digitChar h10]
      rfl
    · next h10 =>
      have hdiv : n / 10 < n := Nat.div_lt_self (by omega) (by norm_num)
      rw [List.mem_append] at hc
      rcases hc with hc | hc
      · exact ih (by omega) c hc
      · simp at hc
        subst hc
        rw [digitVal_digitChar (Nat.mod_lt _ (by norm_num))]
        rfl

theorem natToChars_digits {n : Nat} : ∀ c ∈ natToChars n, (digitVal c).isSome :=
  natToCharsAux_digits (Nat.lt_succ_self n)

theorem natToChars_ne_nil (n : Nat) : natToChars n ≠ [] :=
  natToCharsAux_ne_nil (Nat.lt_succ_self n)

theorem parseDigitsAux_append {l1 l2 : List Char} (h : ∀ c ∈ l1, (digitVal c).isSome)
    (acc : Nat) :
    parseDigitsAux acc (l1 ++ l2) = parseDigitsAux (parseDigitsAux acc l1) l2 := by
  induction l1 generalizing acc with
  | nil => rfl
  | cons c rest ih =>
    obtain ⟨d, hd⟩ := Option.isSome_iff_exists.mp (h c (by simp))
    simp only [List.cons_append, parseDigitsAux, hd]
    exact ih (fun x hx => h x (by simp [hx])) _

theorem parseDigitsAux_natToCharsAux {fuel : Nat} :
    ∀ {n : Nat}, n < fuel → ∀ acc : Nat,
      parseDigitsAux acc (natToCharsAux fuel n)
        = acc * 10 ^ (natToCharsAux fuel n).length + n := by
  induction fuel with
  | zero => intro n h; omega
  | succ fuel ih =>
    intro n h acc
    unfold natToCharsAux
    split
    · next h10 =>
      simp [parseDigitsAux, digitVal_digitChar h10]
      omega
    · next h10 =>
      have hdiv : n / 10 < n := Nat.div_lt_self (by omega) (by norm_num)
      have hf : n / 10 < fuel := by omega
      rw [parseDigitsAux_append (natToCharsAux_digits hf) acc, ih hf acc]
      simp only [parseDigitsAux, digitVal_digitChar (Nat.mod_lt n (by norm_num : 0 < 10))]
      rw [List.length_append, List.length_singleton, pow_succ, ← Nat.mul_assoc]
      have hdm : 10 * (n / 10) + n % 10 = n := Nat.div_add_mod n 10
      generalize acc * 10 ^ (natToCharsAux fuel (n / 10)).length = A
      omega

theorem parseDigitsAux_natToChars (n : Nat) : parseDigitsAux 0 (natToChars n) = n := by
  have h := parseDigitsAux_natToCharsAux (Nat.lt_succ_self n) 0
  simpa [natToChars] using h

theorem jsSpace_of_digit {c : Char} (h : (digitVal c).isSome) : jsSpace c = false := by
  have h48 := (digitVal_isSome_toNat h).1
  have h1 : c ≠ ' ' := by rintro rfl; exact absurd h48 (by decide)
  have h2 : c ≠ '\t' := by rintro rfl; exact absurd h48 (by decide)
  have h3 : c ≠ '\n' := by rintro rfl; exact absurd h48 (by decide)
  have h4 : c ≠ '\r' := by rintro rfl; exact absurd h48 (by decide)
  simp [jsSpace, h1, h2, h3, h4]

theorem dropWhile_jsSpace_digits {l : List Char} (h : ∀ c ∈ l, (digitVal c).isSome) :
    l.dropWhile jsSpace = l := by
  cases l with
  | nil => rfl
  | cons c rest =>
    rw [List.dropWhile_cons_of_neg]
    simp [jsSpace_of_digit (h c (by simp))]

theorem parseIntJs_natToChars (n : Nat) : parseIntJs (natToChars n) = some (n : Int) := by
  obtain ⟨c, rest, hcr⟩ : ∃ c rest, natToChars n = c :: rest := by
    cases hl : natToChars n with
    | nil => exact absurd hl (natToChars_ne_nil n)
    | cons c r => exact ⟨c, r, rfl⟩
  have hc : (digitVal c).isSome := natToChars_digits c (by rw [hcr]; simp)
  have h48 := (digitVal_isSome_toNat hc).1
  have hm : c ≠ '-' := by rintro rfl; exact absurd h48 (by decide)
  have hp : c ≠ '+' := by rintro rfl; exact absurd h48 (by decide)
  unfold parseIntJs
  rw [dropWhile_jsSpace_digits natToChars_digits, hcr]
  simp only [if_neg hm, if_neg hp, parseDigitsHead, if_pos hc, Option.map_some]
  rw [← hcr, parseDigitsAux_natToChars]
  rfl

theorem intToChars_ofNat (n : Nat) : intToChars (n : Int) = natToChars n := by
  unfold intToChars
  rw [if_neg (by omega)]
  simp

/-! ## Lemmas about `splitOnChar` -/

theorem splitOnChar_of_not_mem {sep : Char} {l : List Char} (h : sep ∉ l) :
    splitOnChar sep l = [l] := by
  induction l with
  | nil => rfl
  | cons c rest ih =>
    have hcs : c ≠ sep := by rintro rfl; exact h (by simp)
    have hrest : sep ∉ rest := fun hm => h (by simp [hm])
    unfold splitOnChar
    rw [if_neg hcs, ih hrest]

theorem splitOnChar_append {sep : Char} {a b : List Char} (ha : sep ∉ a) :
    splitOnChar sep (a ++ sep :: b) = a :: splitOnChar sep b := by
  induction a with
  | nil => simp [splitOnChar]
  | cons c rest ih =>
    have hcs : c ≠ sep := by rintro rfl; exact ha (by simp)
    have hrest : sep ∉ rest := fun hm => ha (by simp [hm])
    rw [List.cons_append, splitOnChar, if_neg hcs, ih hrest]

theorem splitOnChar_two {sep : Char} {a b : List Char} (ha : sep ∉ a) (hb : sep ∉ b) :
    splitOnChar sep (a ++ sep :: b) = [a, b] := by
  rw [splitOnChar_append ha, splitOnChar_of_not_mem hb]

theorem dot_not_mem_natToChars (n : Nat) : '.' ∉ natToChars n := by
  intro hm
  exact absurd (digitVal_isSome_toNat (natToChars_digits _ hm)).1 (by decide)

/-! ## Behaviour of `verifyToken` on a token made by `createToken` -/

/-- Core evaluation: verifying a token issued by `createToken` for `s1`
against session id `s2` reduces to the expiry test followed by the
constant-time signature comparison of the two payload digests. -/
theorem verifyToken_createToken_eq (hmac : List Char → List Char) (s1 s2 : List Char)
    (T t now : Nat) (hs2 : s2 ≠ [])
    (hdot : '.' ∉ hmac (ptyPayload s1 ((T + t : Nat) : Int))) :
    verifyToken hmac s2 (createToken hmac t s1 T) now
      = if ((T + t : Nat) : Int) < (now : Int) then some false
        else tsEqual (hexDecode (hmac (ptyPayload s1 ((T + t : Nat) : Int))))
                     (hexDecode (hmac (ptyPayload s2 ((T + t : Nat) : Int)))) := by
  unfold verifyToken createToken
  have htok : natToChars (T + t) ++ '.' :: hmac (ptyPayload s1 ((T + t : Nat) : Int)) ≠ [] := by
    cases natToChars (T + t) <;> simp
  rw [if_neg (by push_neg; exact ⟨htok, hs2⟩)]
  rw [splitOnChar_two (dot_not_mem_natToChars _) hdot]
  simp only [parseIntJs_natToChars]

/-- Claim C1 (amended): for every non-empty session id, verifying the
token issued at `T` with TTL `t` succeeds at every `now ≤ T + t`
(in particular throughout `T ≤ now < T + t` and at `now = T + t`
itself, since the source tests `exp < Date.now()` strictly) and fails
at every `now > T + t`.  The `hmac` digest is assumed not to contain
`'.'` (true of every hex digest). -/
theorem token_roundtrip (hmac : List Char → List Char) (sid : List Char) (T t now : Nat)
    (hsid : sid ≠ [])
    (hdot : '.' ∉ hmac (ptyPayload sid ((T + t : Nat) : Int))) :
    verifyToken hmac sid (createToken hmac t sid T) now = some (decide (now ≤ T + t)) := by
  rw [verifyToken_createToken_eq hmac sid sid T t now hsid hdot]
  by_cases h : now ≤ T + t
  · rw [if_neg (by push_cast; omega)]
    simp [tsEqual, h]
  · rw [if_pos (by push_cast; omega)]
    simp [h]

/-- Witness for `token_roundtrip` at a concrete input (issue at time 2
with TTL 5, verify at time 4). -/
theorem token_roundtrip_wit :
    (['a'] : List Char) ≠ [] ∧
      verifyToken toyDigest ['a'] (createToken toyDigest 5 ['a'] 2) 4
        = some (decide ((4 : Nat) ≤ 2 + 5)) :=
  ⟨by decide, token_roundtrip toyDigest ['a'] 2 5 4 (by decide) (by decide)⟩

/-- Claim C1, counterexample to the claim as stated: the claim says
verification fails at every `now ≥ T + t`, in particular at
`now = T + t` exactly; but for a token issued at `T = 0` with TTL
`t = 1`, verification at `now = 1 = T + t ≥ T + t` still succeeds,
because the source rejects only when `exp < Date.now()` strictly. -/
theorem token_roundtrip_boundary_cex :
    1 ≥ 0 + 1 ∧
      verifyToken toyDigest ['a'] (createToken toyDigest 1 ['a'] 0) 1 = some true :=
  ⟨by omega, by decide⟩

/-- The payload string determines the session id (given the same expiry). -/
theorem ptyPayload_inj {s1 s2 : List Char} {e : Int}
    (h : ptyPayload s1 e = ptyPayload s2 e) : s1 = s2 := by
  unfold ptyPayload at h
  exact List.append_cancel_left (List.append_cancel_right h)

/-- Claim C5: a token issued for `s1` never verifies for a different
session id `s2`, at any time, assuming the digests of the two distinct
payloads decode to byte strings of equal length (hex digests always
decode to 32 bytes) that differ. -/
theorem token_binding (hmac : List Char → List Char) (s1 s2 : List Char) (T t now : Nat)
    (hne : s1 ≠ s2) (hs2 : s2 ≠ [])
    (hdot : '.' ∉ hmac (ptyPayload s1 ((T + t : Nat) : Int)))
    (hlen : (hexDecode (hmac (ptyPayload s1 ((T + t : Nat) : Int)))).length
          = (hexDecode (hmac (ptyPayload s2 ((T + t : Nat) : Int)))).length)
    (hsig : ptyPayload s1 ((T + t : Nat) : Int) ≠ ptyPayload s2 ((T + t : Nat) : Int) →
            hexDecode (hmac (ptyPayload s1 ((T + t : Nat) : Int)))
              ≠ hexDecode (hmac (ptyPayload s2 ((T + t : Nat) : Int)))) :
    verifyToken hmac s2 (createToken hmac t s1 T) now = some false := by
  rw [verifyToken_createToken_eq hmac s1 s2 T t now hs2 hdot]
  by_cases h : ((T + t : Nat) : Int) < (now : Int)
  · rw [if_pos h]
  · rw [if_neg h]
    have hp : ptyPayload s1 ((T + t : Nat) : Int) ≠ ptyPayload s2 ((T + t : Nat) : Int) :=
      fun he => hne (ptyPayload_inj he)
    unfold tsEqual
    rw [if_pos hlen, decide_eq_false (hsig hp)]

/-- Witness for `token_binding`: a token for session `a` is rejected for
session `b` inside its validity window. -/
theorem token_binding_wit :
    verifyToken toyDigest ['b'] (createToken toyDigest 5 ['a'] 0) 2 = some false :=
  token_binding toyDigest ['a'] ['b'] 0 5 2 (by decide) (by decide) (by decide)
    (by decide) (by decide)

/-- Claim C3 (code bug): `verifyToken` is NOT total.  For the well-formed
session id `a` and the token `99999999999999.00` (unexpired numeric
expiry, signature field `00` decoding to one byte while the recomputed
digest decodes to more), the source reaches `crypto.timingSafeEqual`
with buffers of different byte lengths, which throws a `RangeError`
(modelled by `none`) instead of returning `false`.  In the real server
the expected digest is always 32 bytes, so any signature field that
hex-decodes to a different length (wrong length, odd length, or invalid
hex) crashes the `upgrade` handler. -/
theorem verifyToken_throws_bug :
    verifyToken toyDigest ['a'] "99999999999999.00".toList 0 = none := by decide

/-! ## WebSocket upgrade handling (`server.on('upgrade')`)

The upgrade handler parses the request URL; `sid` and `token` are the
query parameters (absent parameters are `undefined`, hence `none`; JS
truthiness also treats an empty-string value as missing).  It writes a
401 before upgrading when either parameter is falsy, a 403 before
upgrading when `verifyToken` returns false, and only otherwise performs
the upgrade and emits `connection`, handing the socket to the session
logic.  Any other pathname destroys the socket. -/

inductive UpgradeOutcome
  | destroyedSilently
  | reject401
  | reject403
  | crashed
  | handedToSessionLogic (sid : List Char)
deriving DecidableEq

/-- The `server.on('upgrade')` handler.  `crashed` models the uncaught
exception that `verifyToken` can throw (see `verifyToken_throws_bug`). -/
def upgradeHandler (hmac : List Char → List Char) (now : Nat) (pathname : String)
    (sidq tokq : Option (List Char)) : UpgradeOutcome :=
  if pathname = "/pty" then
    match sidq, tokq with
    | some s, some t =>
      if s = [] ∨ t = [] then .reject401
      else
        (match verifyToken hmac s t now with
         | some true => .handedToSessionLogic s
         | some false => .reject403
         | none => .crashed)
    | some _, none => .reject401
    | none, _ => .reject401
  else .destroyedSilently

/-- Claim C2: on the `/pty` path a missing (or empty, which JS
truthiness treats the same) `sid` or `token` parameter is rejected 401
before upgrade; a present pair whose verification returns false is
rejected 403 before upgrade; and a socket is handed to the session
logic only when `verifyToken` returned true for exactly the presented
parameters. -/
theorem upgradeHandler_none_sid (hmac : List Char → List Char) (now : Nat)
    (tokq : Option (List Char)) :
    upgradeHandler hmac now "/pty" none tokq = UpgradeOutcome.reject401 := by
  cases tokq <;> rfl

theorem upgradeHandler_none_tok (hmac : List Char → List Char) (now : Nat) (s : List Char) :
    upgradeHandler hmac now "/pty" (some s) none = UpgradeOutcome.reject401 := rfl

theorem upgradeHandler_eval (hmac : List Char → List Char) (now : Nat) (s t : List Char) :
    upgradeHandler hmac now "/pty" (some s) (some t)
      = if s = [] ∨ t = [] then UpgradeOutcome.reject401
        else
          (match verifyToken hmac s t now with
           | some true => UpgradeOutcome.handedToSessionLogic s
           | some false => UpgradeOutcome.reject403
           | none => UpgradeOutcome.crashed) := by
  unfold upgradeHandler
  rw [if_pos rfl]

theorem preupgrade_authorization (hmac : List Char → List Char) (now : Nat)
    (sidq tokq : Option (List Char)) :
    ((sidq = none ∨ sidq = some [] ∨ tokq = none ∨ tokq = some []) →
        upgradeHandler hmac now "/pty" sidq tokq = UpgradeOutcome.reject401)
    ∧ (∀ s t, sidq = some s → tokq = some t → s ≠ [] → t ≠ [] →
        verifyToken hmac s t now = some false →
        upgradeHandler hmac now "/pty" sidq tokq = UpgradeOutcome.reject403)
    ∧ (∀ (pathname : String) (s : List Char),
        upgradeHandler hmac now pathname sidq tokq = UpgradeOutcome.handedToSessionLogic s →
        sidq = some s ∧ ∃ t, tokq = some t ∧ verifyToken hmac s t now = some true) := by
  refine ⟨?_, ?_, ?_⟩
  · intro h
    rcases h with h | h | h | h
    · subst h; exact upgradeHandler_none_sid hmac now tokq
    · subst h
      cases tokq with
      | none => exact upgradeHandler_none_tok hmac now []
      | some t0 => rw [upgradeHandler_eval, if_pos (Or.inl rfl)]
    · subst h
      cases sidq with
      | none => exact upgradeHandler_none_sid hmac now none
      | some s0 => exact upgradeHandler_none_tok hmac now s0
    · subst h
      cases sidq with
      | none => exact upgradeHandler_none_sid hmac now (some [])
      | some s0 => rw [upgradeHandler_eval, if_pos (Or.inr rfl)]
  · intro s t hs ht hsne htne hv
    subst hs; subst ht
    rw [upgradeHandler_eval, if_neg (by tauto), hv]
  · intro pathname s h
    by_cases hp : pathname = "/pty"
    · subst hp
      cases sidq with
      | none => rw [upgradeHandler_none_sid] at h; simp at h
      | some s0 =>
        cases tokq with
        | none => rw [upgradeHandler_none_tok] at h; simp at h
        | some t0 =>
          rw [upgradeHandler_eval] at h
          by_cases he : s0 = [] ∨ t0 = []
          · rw [if_pos he] at h; simp at h
          · rw [if_neg he] at h
            cases hv : verifyToken hmac s0 t0 now with
            | none => rw [hv] at h; simp at h
            | some b =>
              cases b with
              | false => rw [hv] at h; simp at h
              | true =>
                rw [hv] at h
                simp only [] at h
                cases h
                exact ⟨rfl, t0, rfl, hv⟩
    · unfold upgradeHandler at h
      rw [if_neg hp] at h
      simp at h

/-- Witness for `preupgrade_authorization`: the second conjunct applied
to a present but expired token (`0.00`, expiry 0, at time 1). -/
theorem preupgrade_authorization_wit :
    upgradeHandler toyDigest 1 "/pty" (some ['a']) (some ['0', '.', '0', '0'])
      = UpgradeOutcome.reject403 :=
  (preupgrade_authorization toyDigest 1 (some ['a']) (some ['0', '.', '0', '0'])).2.1
    ['a'] ['0', '.', '0', '0'] rfl rfl (by decide) (by decide) (by decide)

/-! ## Working-directory resolution (`safeJoin` / `getCwd`)

POSIX path semantics of Node's `path.resolve`, for an absolute root:
join, then normalize `.`/`..`/empty segments.  `safeJoin` then checks
containment with a plain string `startsWith` — exactly as the source
does. -/

/-- `listIsPre pre l` is JS `l.startsWith(pre)` on character lists. -/
def listIsPre : List Char → List Char → Bool
  | [], _ => true
  | _ :: _, [] => false
  | a :: as, b :: bs => a == b && listIsPre as bs

/-- JS `s.startsWith(pre)`. -/
def strStarts (s pre : String) : Bool := listIsPre pre.toList s.toList

/-- Normalize path segments: drop empty and `.` segments, let `..` pop
the previous segment (or vanish at the root). -/
def normSegsAux (acc : List String) : List String → List String
  | [] => acc.reverse
  | seg :: rest =>
    if seg = "" || seg = "." then normSegsAux acc rest
    else if seg = ".." then normSegsAux (acc.drop 1) rest
    else normSegsAux (seg :: acc) rest

/-- Split a path into `/`-separated segments. -/
def splitSlash (p : String) : List String :=
  (splitOnChar '/' p.toList).map (fun l => String.mk l)

/-- Join segments below the root. -/
def joinSlash (segs : List String) : String :=
  segs.foldl (fun acc seg => acc ++ "/" ++ seg) ""

/-- Normalization of an absolute POSIX path (`path.resolve(p)` for
absolute `p`). -/
def resolveAbs (p : String) : String :=
  match normSegsAux [] (splitSlash p) with
  | [] => "/"
  | segs => joinSlash segs

/-- `path.resolve(root, userPath)` with `root` absolute. -/
def pathResolve (root userPath : String) : String :=
  if strStarts userPath "/" then resolveAbs userPath
  else resolveAbs (root ++ "/" ++ userPath)

/-- `safeJoin(root, userPath)`: resolve against the root and throw
(`none`) when the resolved path does not start with the resolved root
as a string prefix. -/
def safeJoin (root userPath : String) : Option String :=
  if strStarts (pathResolve root userPath) (resolveAbs root) then
    some (pathResolve root userPath)
  else none

/-- `getCwd(requestedCwd)`: a falsy request yields
`process.env.HOME || os.homedir()`; otherwise `safeJoin` against
`ALLOWED_ROOT`, falling back to `os.homedir()` when it throws. -/
def getCwd (allowedRoot envHome osHome : String) (requestedCwd : Option String) : String :=
  match requestedCwd with
  | none => if envHome = "" then osHome else envHome
  | some c =>
    if c = "" then (if envHome = "" then osHome else envHome)
    else
      match safeJoin allowedRoot c with
      | some r => r
      | none => osHome

/-- Claim C4 (code bug): with allowed root `/home/user` (which is also
the home directory here), requesting cwd `../user-evil` resolves to the
sibling directory `/home/user-evil`, which escapes the allowed root
after normalization but shares it as a string prefix; the source's bare
`startsWith` check accepts it, so `getCwd` returns the escaping path
instead of rejecting it and falling back to the home directory. -/
theorem path_safety_bug :
    getCwd "/home/user" "/home/user" "/home/user" (some "../user-evil") = "/home/user-evil"
    ∧ "/home/user-evil" ≠ "/home/user"
    ∧ strStarts "/home/user-evil" "/home/user/" = false := by
  refine ⟨by decide, by decide, by decide⟩

/-! ## The session store

`sessions` is a `Map` from session id to
`{ pty, clients[], lastSeen, name }`.  The PTY process handle is
modelled by a numeric process id; the side effects of the handlers
(spawning and killing processes, sending to and closing WebSocket
clients) are collected in an explicit effect list. -/

/-- A connected WebSocket client; `readyState = 1` is `WebSocket.OPEN`. -/
structure WsClient where
  id : Nat
  readyState : Nat
deriving DecidableEq

/-- One session entry of the `sessions` map. -/
structure Session where
  ptyId : Nat
  clients : List WsClient
  lastSeen : Nat
  name : String
deriving DecidableEq

/-- The `sessions` map, as an association list in insertion order. -/
abbrev Store := List (List Char × Session)

/-- Outbound WebSocket messages. -/
inductive OutMsg
  | connected
  | dataMsg (s : String)
  | errorMsg (s : String)
deriving DecidableEq

/-- Observable side effects of the server handlers. -/
inductive Effect
  | spawnPty (p : Nat) (shell cwd termName : String)
  | killPty (p : Nat)
  | sendMsg (client : Nat) (m : OutMsg)
  | closeClient (client : Nat)
deriving DecidableEq

/-- `sessions.get(sid)`. -/
def getSession (sid : List Char) : Store → Option Session
  | [] => none
  | (k, s) :: rest => if k = sid then some s else getSession sid rest

/-- `sessions.set(sid, v)`: overwrite in place, append when new. -/
def setSession (sid : List Char) (v : Session) : Store → Store
  | [] => [(sid, v)]
  | (k, s) :: rest => if k = sid then (sid, v) :: rest else (k, s) :: setSession sid v rest

/-- `sessions.delete(sid)`. -/
def deleteSession (sid : List Char) : Store → Store
  | [] => []
  | (k, s) :: rest => if k = sid then deleteSession sid rest else (k, s) :: deleteSession sid rest

/-- The idle test of `cleanupIdleSessions`:
`now - session.lastSeen > SESSION_TIMEOUT` (JS numbers can go
negative, hence the `Int` arithmetic). -/
def isIdle (timeout now : Nat) (s : Session) : Bool :=
  decide ((timeout : Int) < (now : Int) - (s.lastSeen : Int))

/-- `cleanupIdleSessions()`: scan all sessions; for each idle one, kill
its PTY and delete its entry. -/
def cleanupIdleSessions (timeout now : Nat) : Store → Store × List Effect
  | [] => ([], [])
  | (k, s) :: rest =>
    if isIdle timeout now s then
      ((cleanupIdleSessions timeout now rest).1,
        Effect.killPty s.ptyId :: (cleanupIdleSessions timeout now rest).2)
    else ((k, s) :: (cleanupIdleSessions timeout now rest).1,
      (cleanupIdleSessions timeout now rest).2)

/-- The `forEach` body of the registered `ptyProcess.onExit` handler:
send an error message to every open client and close it. -/
def exitBroadcastAux : List WsClient → List Effect
  | [] => []
  | c :: rest =>
    if c.readyState = 1 then
      Effect.sendMsg c.id (OutMsg.errorMsg "Terminal exited")
        :: Effect.closeClient c.id :: exitBroadcastAux rest
    else exitBroadcastAux rest

/-- The registered `ptyProcess.onExit` handler of a session: notify and
close the clients, then delete the entry. -/
def ptyExitHandler (sid : List Char) (s : Session) (st : Store) : Store × List Effect :=
  (deleteSession sid st, exitBroadcastAux s.clients)

/-- Run the exit handlers of the given killed sessions in order. -/
def runExitHandlers : List (List Char × Session) → Store → List Effect → Store × List Effect
  | [], st, effs => (st, effs)
  | (k, s) :: rest, st, effs =>
    runExitHandlers rest (ptyExitHandler k s st).1 (effs ++ (ptyExitHandler k s st).2)

/-- One sweep tick: `cleanupIdleSessions` (each `pty.kill()` makes the
process exit), followed by the `onExit` callbacks of the killed
sessions. -/
def sweepTick (timeout now : Nat) (st : Store) : Store × List Effect :=
  runExitHandlers (st.filter (fun e => isIdle timeout now e.2))
    (cleanupIdleSessions timeout now st).1 (cleanupIdleSessions timeout now st).2

/-- Result of handing a fresh socket to `wss.on('connection')`. -/
inductive AttachResult
  | notFound
  | attached
deriving DecidableEq

/-- The `wss.on('connection')` handler: look up the session; if absent,
send an error and close the socket; otherwise push the client, refresh
activity and acknowledge with `connected`. -/
def connectionHandler (ws : WsClient) (sid : List Char) (now : Nat) (st : Store) :
    Store × List Effect × AttachResult :=
  match getSession sid st with
  | none =>
    (st, [Effect.sendMsg ws.id (OutMsg.errorMsg "Session not found"),
          Effect.closeClient ws.id], .notFound)
  | some sess =>
    (setSession sid { sess with clients := sess.clients ++ [ws], lastSeen := now } st,
     [Effect.sendMsg ws.id OutMsg.connected], .attached)

/-! ## Lemmas about the session store and the sweep -/

theorem getSession_of_mem_nodup {st : Store} {sid : List Char} {s : Session}
    (hnd : (st.map Prod.fst).Nodup) (hmem : (sid, s) ∈ st) :
    getSession sid st = some s := by
  induction st with
  | nil => cases hmem
  | cons e rest ih =>
    obtain ⟨k, x⟩ := e
    rw [List.map_cons, List.nodup_cons] at hnd
    rcases List.mem_cons.mp hmem with he | hm
    · cases he
      simp [getSession]
    · have hk : k ≠ sid := by
        rintro rfl
        exact hnd.1 (List.mem_map.mpr ⟨(k, s), hm, rfl⟩)
      rw [getSession, if_neg hk]
      exact ih hnd.2 hm

theorem cleanupIdleSessions_fst (timeout now : Nat) (st : Store) :
    (cleanupIdleSessions timeout now st).1
      = st.filter (fun e => !isIdle timeout now e.2) := by
  induction st with
  | nil => rfl
  | cons e rest ih =>
    obtain ⟨k, s⟩ := e
    by_cases hi : isIdle timeout now s = true
    · simp [cleanupIdleSessions, List.filter_cons, hi, ih]
    · simp only [Bool.not_eq_true] at hi
      simp [cleanupIdleSessions, List.filter_cons, hi, ih]

theorem killPty_mem_cleanup {timeout now : Nat} {st : Store} {sid : List Char} {s : Session}
    (hmem : (sid, s) ∈ st) (hi : isIdle timeout now s = true) :
    Effect.killPty s.ptyId ∈ (cleanupIdleSessions timeout now st).2 := by
  induction st with
  | nil => cases hmem
  | cons e rest ih =>
    obtain ⟨k, x⟩ := e
    rcases List.mem_cons.mp hmem with he | hm
    · cases he
      rw [cleanupIdleSessions, if_pos hi]
      exact List.mem_cons_self _ _
    · by_cases hx : isIdle timeout now x = true
      · rw [cleanupIdleSessions, if_pos hx]
        exact List.mem_cons_of_mem _ (ih hm)
      · rw [cleanupIdleSessions, if_neg hx]
        exact ih hm

theorem getSession_filter_none {st : Store} {sid : List Char}
    {p : List Char × Session → Bool}
    (h : ∀ s', (sid, s') ∈ st → p (sid, s') = false) :
    getSession sid (st.filter p) = none := by
  induction st with
  | nil => rfl
  | cons e rest ih =>
    obtain ⟨k, x⟩ := e
    have hrest := ih (fun s' hm => h s' (List.mem_cons_of_mem _ hm))
    rw [List.filter_cons]
    by_cases hk : k = sid
    · subst hk
      rw [h x (List.mem_cons_self _ _)]
      exact hrest
    · by_cases hp : p (k, x) = true
      · rw [hp]
        rw [if_pos rfl, getSession, if_neg hk]
        exact hrest
      · simp only [Bool.not_eq_true] at hp
        rw [hp]
        exact hrest

theorem getSession_filter_eq {st : Store} {sid : List Char}
    {p : List Char × Session → Bool}
    (h : ∀ s', (sid, s') ∈ st → p (sid, s') = true) :
    getSession sid (st.filter p) = getSession sid st := by
  induction st with
  | nil => rfl
  | cons e rest ih =>
    obtain ⟨k, x⟩ := e
    have hrest := ih (fun s' hm => h s' (List.mem_cons_of_mem _ hm))
    rw [List.filter_cons]
    by_cases hk : k = sid
    · subst hk
      rw [h x (List.mem_cons_self _ _), if_pos rfl, getSession, getSession,
        if_pos rfl, if_pos rfl]
    · by_cases hp : p (k, x) = true
      · rw [hp, if_pos rfl, getSession, getSession, if_neg hk, if_neg hk]
        exact hrest
      · simp only [Bool.not_eq_true] at hp
        rw [hp]
        simp only [Bool.false_eq_true, if_false]
        rw [hrest, getSession, if_neg hk]

theorem getSession_deleteSession_self {st : Store} {sid : List Char} :
    getSession sid (deleteSession sid st) = none := by
  induction st with
  | nil => rfl
  | cons e rest ih =>
    obtain ⟨k, x⟩ := e
    by_cases hk : k = sid
    · rw [deleteSession, if_pos hk]
      exact ih
    · rw [deleteSession, if_neg hk, getSession, if_neg hk]
      exact ih

theorem getSession_deleteSession_ne {st : Store} {sid k : List Char} (h : sid ≠ k) :
    getSession sid (deleteSession k st) = getSession sid st := by
  induction st with
  | nil => rfl
  | cons e rest ih =>
    obtain ⟨k', x⟩ := e
    by_cases hk : k' = k
    · subst hk
      rw [deleteSession, if_pos rfl, ih, getSession, if_neg (fun hh => h hh.symm)]
    · rw [deleteSession, if_neg hk]
      by_cases hs : k' = sid
      · subst hs
        rw [getSession, getSession, if_pos rfl, if_pos rfl]
      · rw [getSession, getSession, if_neg hs, if_neg hs]
        exact ih

theorem getSession_deleteSession_none {st : Store} {sid k : List Char}
    (h : getSession sid st = none) :
    getSession sid (deleteSession k st) = none := by
  by_cases hk : sid = k
  · subst hk
    exact getSession_deleteSession_self
  · rw [getSession_deleteSession_ne hk]
    exact h

theorem runExitHandlers_fst_none {sid : List Char} :
    ∀ (l : List (List Char × Session)) (st : Store) (effs : List Effect),
      getSession sid st = none →
      getSession sid (runExitHandlers l st effs).1 = none := by
  intro l
  induction l with
  | nil => intro st effs h; exact h
  | cons e rest ih =>
    intro st effs h
    obtain ⟨k, s⟩ := e
    exact ih _ _ (getSession_deleteSession_none h)

theorem runExitHandlers_fst_not_mem {sid : List Char} :
    ∀ (l : List (List Char × Session)) (st : Store) (effs : List Effect),
      sid ∉ l.map Prod.fst →
      getSession sid (runExitHandlers l st effs).1 = getSession sid st := by
  intro l
  induction l with
  | nil => intro st effs _; rfl
  | cons e rest ih =>
    intro st effs hnm
    obtain ⟨k, s⟩ := e
    have hk : sid ≠ k := by
      rintro rfl
      exact hnm (by rw [List.map_cons]; exact List.mem_cons_self _ _)
    have hr : sid ∉ rest.map Prod.fst := by
      intro hm
      exact hnm (by rw [List.map_cons]; exact List.mem_cons_of_mem _ hm)
    show getSession sid
        (runExitHandlers rest (deleteSession k st) (effs ++ exitBroadcastAux s.clients)).1
      = getSession sid st
    rw [ih _ _ hr]
    exact getSession_deleteSession_ne hk

theorem runExitHandlers_effs_mono :
    ∀ (l : List (List Char × Session)) (st : Store) (effs : List Effect) {e : Effect},
      e ∈ effs → e ∈ (runExitHandlers l st effs).2 := by
  intro l
  induction l with
  | nil => intro st effs e he; exact he
  | cons p rest ih =>
    intro st effs e he
    obtain ⟨k, s⟩ := p
    exact ih _ _ (List.mem_append_left _ he)

theorem runExitHandlers_effs_mem {e : Effect} :
    ∀ (l : List (List Char × Session)) (st : Store) (effs : List Effect)
      {k : List Char} {s : Session}, (k, s) ∈ l →
      e ∈ exitBroadcastAux s.clients → e ∈ (runExitHandlers l st effs).2 := by
  intro l
  induction l with
  | nil => intro st effs k s hm; cases hm
  | cons p rest ih =>
    intro st effs k s hm he
    obtain ⟨k', s'⟩ := p
    rcases List.mem_cons.mp hm with hh | hm2
    · cases hh
      show e ∈ (runExitHandlers rest (deleteSession k st) (effs ++ exitBroadcastAux s.clients)).2
      exact runExitHandlers_effs_mono _ _ _ (List.mem_append_right _ he)
    · exact ih _ _ hm2 he

theorem closeClient_mem_exitBroadcastAux {cl : List WsClient} {c : WsClient}
    (hm : c ∈ cl) (hr : c.readyState = 1) :
    Effect.closeClient c.id ∈ exitBroadcastAux cl := by
  induction cl with
  | nil => cases hm
  | cons d rest ih =>
    rcases List.mem_cons.mp hm with hh | hm2
    · subst hh
      rw [exitBroadcastAux, if_pos hr]
      exact List.mem_cons_of_mem _ (List.mem_cons_self _ _)
    · by_cases hd : d.readyState = 1
      · rw [exitBroadcastAux, if_pos hd]
        exact List.mem_cons_of_mem _ (List.mem_cons_of_mem _ (ih hm2))
      · rw [exitBroadcastAux, if_neg hd]
        exact ih hm2

/-- Claim C6: at a sweep tick, every session idle for longer than the
timeout is force-closed (its PTY killed, every open attached client
closed via the exit callback, its entry removed, and a subsequent
attach yields not-found), while every session within the timeout is
left unchanged in the store. -/
theorem idle_sweep_reaps (timeout now : Nat) (st : Store)
    (hnd : (st.map Prod.fst).Nodup) (sid : List Char) (sess : Session)
    (hmem : (sid, sess) ∈ st) :
    (isIdle timeout now sess = true →
      getSession sid (sweepTick timeout now st).1 = none
      ∧ Effect.killPty sess.ptyId ∈ (sweepTick timeout now st).2
      ∧ (∀ c ∈ sess.clients, c.readyState = 1 →
          Effect.closeClient c.id ∈ (sweepTick timeout now st).2)
      ∧ (∀ (ws : WsClient) (now2 : Nat),
          (connectionHandler ws sid now2 (sweepTick timeout now st).1).2.2
            = AttachResult.notFound))
    ∧ (isIdle timeout now sess = false →
      getSession sid (sweepTick timeout now st).1 = some sess) := by
  have hval : ∀ s', (sid, s') ∈ st → s' = sess := by
    intro s' hm'
    have h1 := getSession_of_mem_nodup hnd hmem
    have h2 := getSession_of_mem_nodup hnd hm'
    rw [h1] at h2
    exact (Option.some_inj.mp h2).symm
  constructor
  · intro hidle
    have hstore : getSession sid (sweepTick timeout now st).1 = none := by
      unfold sweepTick
      apply runExitHandlers_fst_none
      rw [cleanupIdleSessions_fst]
      apply getSession_filter_none
      intro s' hm'
      rw [hval s' hm', hidle]
      rfl
    refine ⟨hstore, ?_, ?_, ?_⟩
    · unfold sweepTick
      exact runExitHandlers_effs_mono _ _ _ (killPty_mem_cleanup hmem hidle)
    · intro c hc hr
      unfold sweepTick
      exact runExitHandlers_effs_mem _ _ _
        (List.mem_filter.mpr ⟨hmem, hidle⟩)
        (closeClient_mem_exitBroadcastAux hc hr)
    · intro ws now2
      unfold connectionHandler
      rw [hstore]
  · intro hidle
    unfold sweepTick
    rw [runExitHandlers_fst_not_mem]
    · rw [cleanupIdleSessions_fst]
      rw [getSession_filter_eq (fun s' hm' => by rw [hval s' hm', hidle]; rfl)]
      exact getSession_of_mem_nodup hnd hmem
    · intro hmm
      obtain ⟨⟨a, b⟩, hab, hfst⟩ := List.mem_map.mp hmm
      obtain ⟨hab1, hab2⟩ := List.mem_filter.mp hab
      cases hfst
      rw [hval b hab1, hidle] at hab2
      cases hab2

/-- Witness for `idle_sweep_reaps`: a session idle for 100ms with a
10ms timeout is killed, its open client is closed, and its entry is
gone after the sweep. -/
theorem idle_sweep_reaps_wit :
    getSession ['x'] (sweepTick 10 100 [(['x'], ⟨7, [⟨1, 1⟩], 0, "terminal"⟩)]).1 = none
    ∧ Effect.killPty 7 ∈ (sweepTick 10 100 [(['x'], ⟨7, [⟨1, 1⟩], 0, "terminal"⟩)]).2
    ∧ Effect.closeClient 1 ∈ (sweepTick 10 100 [(['x'], ⟨7, [⟨1, 1⟩], 0, "terminal"⟩)]).2 := by
  have h := (idle_sweep_reaps 10 100 [(['x'], ⟨7, [⟨1, 1⟩], 0, "terminal"⟩)]
      (by simp) ['x'] ⟨7, [⟨1, 1⟩], 0, "terminal"⟩ (by simp)).1 (by decide)
  exact ⟨h.1, h.2.1, h.2.2.1 ⟨1, 1⟩ (by simp) rfl⟩

/-! ## `POST /api/pty/start` (`createSession` and start-or-attach)

`generateSid()` (16 random bytes as hex) and the fresh PTY process id
are external nondeterminism, passed in as `freshSid` / `freshPty`. -/

/-- `createSession(sid, cwd, name)`: resolve the shell and working
directory, spawn the PTY (with terminal type `name || 'xterm-color'`),
store the fresh entry `{ pty, clients: [], lastSeen: now,
name: name || 'terminal' }`, and register the data/exit callbacks
(whose exit behaviour is `ptyExitHandler`). -/
def createSession (shell allowedRoot envHome osHome : String) (freshPty now : Nat)
    (sid : List Char) (cwd nameArg : Option String) (st : Store) : Store × List Effect :=
  let workingDir := getCwd allowedRoot envHome osHome cwd
  let termName := match nameArg with
    | some n => if n = "" then "xterm-color" else n
    | none => "xterm-color"
  let sessName := match nameArg with
    | some n => if n = "" then "terminal" else n
    | none => "terminal"
  (setSession sid { ptyId := freshPty, clients := [], lastSeen := now, name := sessName } st,
   [Effect.spawnPty freshPty shell workingDir termName])

/-- The JSON answer of `POST /api/pty/start` (the `url` and `wsUrl`
fields of the response interpolate exactly `sid` and `token`). -/
structure StartResp where
  sid : List Char
  token : List Char
deriving DecidableEq

/-- The `POST /api/pty/start` handler: reuse the existing session when
a truthy `sid` is supplied and found (only refreshing `lastSeen`),
otherwise create one under the supplied or a freshly generated id; in
all cases issue a fresh token for the resolved id. -/
def startOrAttach (hmac : List Char → List Char) (ttl : Nat)
    (shell allowedRoot envHome osHome : String) (freshSid : List Char) (freshPty now : Nat)
    (reqSid : Option (List Char)) (cwd nameArg : Option String) (st : Store) :
    Store × List Effect × StartResp :=
  match reqSid with
  | some s =>
    if s = [] then
      let r := createSession shell allowedRoot envHome osHome freshPty now freshSid cwd nameArg st
      (r.1, r.2, { sid := freshSid, token := createToken hmac ttl freshSid now })
    else
      match getSession s st with
      | some sess =>
        (setSession s { sess with lastSeen := now } st, [],
         { sid := s, token := createToken hmac ttl s now })
      | none =>
        let r := createSession shell allowedRoot envHome osHome freshPty now s cwd nameArg st
        (r.1, r.2, { sid := s, token := createToken hmac ttl s now })
  | none =>
    let r := createSession shell allowedRoot envHome osHome freshPty now freshSid cwd nameArg st
    (r.1, r.2, { sid := freshSid, token := createToken hmac ttl freshSid now })

/-- Claim C7: a start request carrying a session id that exists in the
store spawns nothing (no effects at all), only refreshes that entry's
`lastSeen` (process, clients, name and all other entries unchanged),
ignores the supplied `cwd` and `name`, and answers with the id and a
freshly issued token for it; and in ALL cases (second conjunct) the
response token is `createToken` of the resolved response id at the
current time. -/
theorem start_reuse_frame (hmac : List Char → List Char) (ttl : Nat)
    (shell allowedRoot envHome osHome : String) (freshSid : List Char) (freshPty now : Nat)
    (s : List Char) (cwd nameArg : Option String) (st : Store) (sess : Session)
    (hs : s ≠ []) (hmem : getSession s st = some sess) :
    (startOrAttach hmac ttl shell allowedRoot envHome osHome freshSid freshPty now
        (some s) cwd nameArg st
      = (setSession s { sess with lastSeen := now } st, [],
         { sid := s, token := createToken hmac ttl s now }))
    ∧ (∀ (reqSid2 : Option (List Char)) (cwd2 name2 : Option String) (st2 : Store),
        (startOrAttach hmac ttl shell allowedRoot envHome osHome freshSid freshPty now
            reqSid2 cwd2 name2 st2).2.2.token
          = createToken hmac ttl
              (startOrAttach hmac ttl shell allowedRoot envHome osHome freshSid freshPty now
                reqSid2 cwd2 name2 st2).2.2.sid now) := by
  constructor
  · unfold startOrAttach
    dsimp only
    rw [if_neg hs, hmem]
  · intro reqSid2 cwd2 name2 st2
    cases reqSid2 with
    | none => rfl
    | some s2 =>
      unfold startOrAttach
      dsimp only
      by_cases h2 : s2 = []
      · rw [if_pos h2]
      · rw [if_neg h2]
        cases getSession s2 st2 <;> rfl

/-- Witness for `start_reuse_frame` on a one-session store. -/
theorem start_reuse_frame_wit :
    startOrAttach toyDigest 9 "/bin/sh" "/root" "/root" "/root" ['f'] 3 50
        (some ['x']) (some "/tmp") (some "n") [(['x'], ⟨7, [⟨1, 1⟩], 0, "terminal"⟩)]
      = ([(['x'], ⟨7, [⟨1, 1⟩], 50, "terminal"⟩)], [],
         { sid := ['x'], token := createToken toyDigest 9 ['x'] 50 }) :=
  (start_reuse_frame toyDigest 9 "/bin/sh" "/root" "/root" "/root" ['f'] 3 50
    ['x'] (some "/tmp") (some "n") [(['x'], ⟨7, [⟨1, 1⟩], 0, "terminal"⟩)]
    ⟨7, [⟨1, 1⟩], 0, "terminal"⟩ (by decide) (by decide)).1

/-! ## The context relay

JSON-ish JavaScript values for the request bodies: `docs` and
`viewport` are arbitrary body fields, so the model distinguishes
arrays, objects, numbers (with `NaN`/`Infinity`), strings, booleans,
`null` and `undefined`. -/

/-- A JS number as far as `Number.isFinite` can tell. -/
inductive JNum
  | fin (v : Int)
  | nan
  | inf (pos : Bool)
deriving DecidableEq

/-- A JavaScript value. -/
inductive JVal
  | jsUndefined
  | null
  | bool (b : Bool)
  | num (n : JNum)
  | str (s : String)
  | arr (xs : List JVal)
  | obj (fields : List (String × JVal))

/-- JS truthiness. -/
def truthy : JVal → Bool
  | .jsUndefined => false
  | .null => false
  | .bool b => b
  | .num (.fin v) => decide (v ≠ 0)
  | .num .nan => false
  | .num (.inf _) => true
  | .str s => decide (s ≠ "")
  | .arr _ => true
  | .obj _ => true

/-- `typeof v === 'object'` (true for objects, arrays and `null`). -/
def typeofIsObject : JVal → Bool
  | .null => true
  | .arr _ => true
  | .obj _ => true
  | _ => false

/-- Property access `v[k]`: `undefined` except on objects that carry
the key (array/string index properties are not among the keys used
here). -/
def getField (v : JVal) (k : String) : JVal :=
  match v with
  | .obj fs =>
    (match fs.find? (fun e => e.1 == k) with
     | some e => e.2
     | none => .jsUndefined)
  | _ => .jsUndefined

/-- `Number.isFinite(v)` with the finite value extracted. -/
def finiteNum : JVal → Option Int
  | .num (.fin v) => some v
  | _ => none

/-- A validated viewport rectangle. -/
structure Viewport where
  x : Int
  y : Int
  width : Int
  height : Int
deriving DecidableEq

/-- The `viewportData` expression of `POST /api/context/:embedId`:
`viewport && typeof viewport === 'object' && Number.isFinite(x/y/width/height)
? {x, y, width, height} : null`. -/
def viewportData (viewport : JVal) : Option Viewport :=
  if truthy viewport && typeofIsObject viewport then
    (match finiteNum (getField viewport "x"), finiteNum (getField viewport "y"),
           finiteNum (getField viewport "width"), finiteNum (getField viewport "height") with
     | some x, some y, some w, some h => some ⟨x, y, w, h⟩
     | _, _, _, _ => none)
  else none

/-- Modelled from the spec's words, for comparison with `viewportData`:
"a viewport equal to `{x, y, width, height}` exactly when all four
fields are finite numbers and null otherwise". -/
def viewportSpec (viewport : JVal) : Option Viewport :=
  match finiteNum (getField viewport "x"), finiteNum (getField viewport "y"),
        finiteNum (getField viewport "width"), finiteNum (getField viewport "height") with
  | some x, some y, some w, some h => some ⟨x, y, w, h⟩
  | _, _, _, _ => none

/-- A stored context record `{ docs, viewport, updatedAt }`. -/
structure ContextRecord where
  docs : List JVal
  viewport : Option Viewport
  updatedAt : Nat

/-- `contextStore.set(embedId, v)`. -/
def ctxSet (k : String) (v : ContextRecord) :
    List (String × ContextRecord) → List (String × ContextRecord)
  | [] => [(k, v)]
  | (k', v') :: rest => if k' = k then (k, v) :: rest else (k', v') :: ctxSet k v rest

/-- `contextStore.get(embedId)`. -/
def ctxGet (k : String) : List (String × ContextRecord) → Option ContextRecord
  | [] => none
  | (k', v') :: rest => if k' = k then some v' else ctxGet k rest

/-- Responses of the context-push route. -/
inductive PushResp
  | badRequest (msg : String)
  | okCount (n : Nat)
deriving DecidableEq

/-- `POST /api/context/:embedId`: reject with 400 when `docs` is not an
array (store untouched), otherwise overwrite the record with the docs,
the validated viewport and a fresh timestamp, answering with the count
stored. -/
def postContextRoute (now : Nat) (embedId : String) (docs viewport : JVal)
    (store : List (String × ContextRecord)) : List (String × ContextRecord) × PushResp :=
  match docs with
  | .arr xs =>
    (ctxSet embedId { docs := xs, viewport := viewportData viewport, updatedAt := now } store,
     .okCount xs.length)
  | _ => (store, .badRequest "docs must be an array")

/-- The JSON answer of `GET /api/context/:embedId` (`updatedAt` is
`null` when nothing was ever pushed). -/
structure CtxResp where
  docs : List JVal
  viewport : Option Viewport
  updatedAt : Option Nat

/-- `GET /api/context/:embedId`: the stored record, or the empty
default — a function of the context store only. -/
def getContextRoute (embedId : String) (store : List (String × ContextRecord)) : CtxResp :=
  match ctxGet embedId store with
  | none => { docs := [], viewport := none, updatedAt := none }
  | some r => { docs := r.docs, viewport := r.viewport, updatedAt := some r.updatedAt }

/-- `GET /api/context/requests`: collect the embed ids whose request
time is within the TTL, deleting every expired entry found during the
scan; answers `{embedIds}` — a function of the request-time map only. -/
def listRequestsRoute (ttl now : Nat) :
    List (String × Nat) → List (String × Nat) × List String
  | [] => ([], [])
  | (id, t0) :: rest =>
    if (now : Int) - (t0 : Int) < (ttl : Int) then
      ((id, t0) :: (listRequestsRoute ttl now rest).1,
        id :: (listRequestsRoute ttl now rest).2)
    else listRequestsRoute ttl now rest

/-- `contextRequestTimes.set(embedId, v)`. -/
def reqSet (k : String) (v : Nat) : List (String × Nat) → List (String × Nat)
  | [] => [(k, v)]
  | (k', v') :: rest => if k' = k then (k, v) :: rest else (k', v') :: reqSet k v rest

/-- `POST /api/context/:embedId/request`: record the current time. -/
def requestRefreshRoute (now : Nat) (embedId : String) (m : List (String × Nat)) :
    List (String × Nat) :=
  reqSet embedId now m

/-! ## Claims about the context relay -/

theorem viewportData_eq_spec (v : JVal) : viewportData v = viewportSpec v := by
  cases v with
  | jsUndefined => rfl
  | null => rfl
  | bool b => cases b <;> rfl
  | num n => simp [viewportData, viewportSpec, typeofIsObject, getField, finiteNum,
      Bool.and_false]
  | str s => simp [viewportData, viewportSpec, typeofIsObject, getField, finiteNum,
      Bool.and_false]
  | arr xs => rfl
  | obj fs => rfl

/-- Claim C8: a push whose `docs` is not an array is rejected with a
400 and leaves the store unchanged; an array push overwrites the
record with the docs, a fresh `updatedAt` and the validated viewport,
and reports the stored count; and the stored viewport is exactly the
rectangle of the four fields when all are finite numbers, `null`
otherwise (`viewportData = viewportSpec`). -/
theorem context_push_validation (now : Nat) (embedId : String) (docs viewport : JVal)
    (store : List (String × ContextRecord)) :
    ((∀ xs, docs ≠ JVal.arr xs) →
        postContextRoute now embedId docs viewport store
          = (store, PushResp.badRequest "docs must be an array"))
    ∧ (∀ xs, docs = JVal.arr xs →
        postContextRoute now embedId docs viewport store
          = (ctxSet embedId { docs := xs, viewport := viewportData viewport, updatedAt := now }
              store, PushResp.okCount xs.length))
    ∧ viewportData viewport = viewportSpec viewport := by
  refine ⟨?_, ?_, viewportData_eq_spec viewport⟩
  · intro h
    cases docs with
    | arr xs => exact absurd rfl (h xs)
    | jsUndefined => rfl
    | null => rfl
    | bool b => rfl
    | num n => rfl
    | str s => rfl
    | obj fs => rfl
  · intro xs h
    subst h
    rfl

/-- Witness for `context_push_validation`: the spec's own example —
pushing `[]` with `{x:1, y:2, width:NaN, height:4}` stores
`viewport: null` and reports count 0. -/
theorem context_push_validation_wit :
    postContextRoute 5 "e1" (JVal.arr [])
        (JVal.obj [("x", JVal.num (JNum.fin 1)), ("y", JVal.num (JNum.fin 2)),
                   ("width", JVal.num JNum.nan), ("height", JVal.num (JNum.fin 4))]) []
      = ([("e1", { docs := [], viewport := none, updatedAt := 5 })], PushResp.okCount 0) := by
  rw [(context_push_validation 5 "e1" (JVal.arr [])
      (JVal.obj [("x", JVal.num (JNum.fin 1)), ("y", JVal.num (JNum.fin 2)),
                 ("width", JVal.num JNum.nan), ("height", JVal.num (JNum.fin 4))]) []).2.1
      [] rfl]
  rfl

/-- The live test of the pending-request scan:
`now - at < CONTEXT_REQUEST_TTL_MS`. -/
def reqLive (ttl now : Nat) (e : String × Nat) : Bool :=
  decide ((now : Int) - (e.2 : Int) < (ttl : Int))

theorem listRequestsRoute_eq (ttl now : Nat) (m : List (String × Nat)) :
    listRequestsRoute ttl now m
      = (m.filter (reqLive ttl now), (m.filter (reqLive ttl now)).map Prod.fst) := by
  induction m with
  | nil => rfl
  | cons e rest ih =>
    obtain ⟨id, t0⟩ := e
    by_cases hc : (now : Int) - (t0 : Int) < (ttl : Int)
    · have hl : reqLive ttl now (id, t0) = true := by
        simpa [reqLive] using hc
      rw [listRequestsRoute, if_pos hc, ih, List.filter_cons, hl]
      simp
    · have hl : reqLive ttl now (id, t0) = false := by
        simpa [reqLive] using hc
      rw [listRequestsRoute, if_neg hc, ih, List.filter_cons, hl]
      simp

/-- Claim C9: a read of the pending-request list at time `now` returns
exactly the embed ids recorded within the TTL; the surviving map is
the list filtered to the live entries, so no entry that was expired at
this read remains (a second read at the same time is a no-op on the
map, and an entry expired now stays expired at any later time). -/
theorem pending_requests_ttl (ttl now : Nat) (m : List (String × Nat)) :
    (listRequestsRoute ttl now m).2 = (m.filter (reqLive ttl now)).map Prod.fst
    ∧ (listRequestsRoute ttl now m).1 = m.filter (reqLive ttl now)
    ∧ (∀ id, id ∈ (listRequestsRoute ttl now m).2
        ↔ ∃ t0, (id, t0) ∈ m ∧ (now : Int) - (t0 : Int) < (ttl : Int))
    ∧ listRequestsRoute ttl now (listRequestsRoute ttl now m).1 = listRequestsRoute ttl now m
    ∧ (∀ e ∈ (listRequestsRoute ttl now m).1, (now : Int) - (e.2 : Int) < (ttl : Int)) := by
  have hq := listRequestsRoute_eq ttl now m
  refine ⟨by rw [hq], by rw [hq], ?_, ?_, ?_⟩
  · intro id
    rw [hq]
    dsimp only
    rw [List.mem_map]
    constructor
    · rintro ⟨⟨a, b⟩, hab, rfl⟩
      obtain ⟨hm, hl⟩ := List.mem_filter.mp hab
      exact ⟨b, hm, by simpa [reqLive] using hl⟩
    · rintro ⟨t0, hm, hl⟩
      exact ⟨(id, t0), List.mem_filter.mpr ⟨hm, by simpa [reqLive] using hl⟩, rfl⟩
  · rw [hq]
    dsimp only
    rw [listRequestsRoute_eq ttl now (m.filter (reqLive ttl now)), List.filter_filter]
    simp [Bool.and_self]
  · rw [hq]
    dsimp only
    intro e he
    have h := (List.mem_filter.mp he).2
    simpa [reqLive] using h

/-- Witness for `pending_requests_ttl`: a single live entry survives
the read and is indeed live. -/
theorem pending_requests_ttl_wit :
    ("e1", 5) ∈ (listRequestsRoute 30000 10 [("e1", 5)]).1
    ∧ (10 : Int) - (5 : Int) < (30000 : Int) :=
  ⟨by decide, (pending_requests_ttl 30000 10 [("e1", 5)]).2.2.2.2 ("e1", 5) (by decide)⟩

/-! ## Express routing of the context endpoints -/

/-- HTTP methods used by the API routes. -/
inductive Method
  | get
  | post
  | del
deriving DecidableEq

/-- Which registered route handles a request. -/
inductive RouteMatch
  | ptyStart
  | ptyClose
  | health
  | postCtx (embedId : String)
  | ctxRequests
  | getCtx (embedId : String)
  | ctxRefresh (embedId : String)
deriving DecidableEq

/-- Express dispatch over the path segments, in registration order:
`POST /api/pty/start`, `DELETE /api/pty/close`,
`POST /api/context/:embedId`, `GET /api/context/requests`,
`GET /api/context/:embedId`, `POST /api/context/:embedId/request`,
`GET /health`.  A `:param` matches exactly one non-empty segment, and
the first matching route (per method) wins. -/
def dispatch (m : Method) (segs : List String) : Option RouteMatch :=
  match m, segs with
  | .post, ["api", "pty", "start"] => some .ptyStart
  | .del, ["api", "pty", "close"] => some .ptyClose
  | .post, ["api", "context", e] => if e = "" then none else some (.postCtx e)
  | .get, ["api", "context", e] =>
    if e = "requests" then some .ctxRequests
    else if e = "" then none else some (.getCtx e)
  | .post, ["api", "context", e, "request"] => if e = "" then none else some (.ctxRefresh e)
  | .get, ["health"] => some .health
  | _, _ => none

/-- Claim C10: a POST to `/api/context/requests` is handled by the
context-push route with the literal embed id `requests`, and a valid
docs array is then stored under the key `requests`; but every GET of
`/api/context/requests` is handled by the pending-request list route
(`listRequestsRoute`, a function of the request-time map only, never of
the context store), and no GET request ever dispatches to the
context-read route with embed id `requests` — so the stored record can
never be read back. -/
theorem context_requests_shadow :
    dispatch Method.post ["api", "context", "requests"] = some (RouteMatch.postCtx "requests")
    ∧ dispatch Method.get ["api", "context", "requests"] = some RouteMatch.ctxRequests
    ∧ (∀ (xs : List JVal) (vp : JVal) (now : Nat) (store : List (String × ContextRecord)),
        (postContextRoute now "requests" (JVal.arr xs) vp store).1
          = ctxSet "requests"
              { docs := xs, viewport := viewportData vp, updatedAt := now } store)
    ∧ (∀ (e : String) (segs : List String),
        dispatch Method.get segs = some (RouteMatch.getCtx e) → e ≠ "requests") := by
  refine ⟨by decide, by decide, fun xs vp now store => rfl, ?_⟩
  intro e segs h he
  subst he
  unfold dispatch at h
  split at h <;> simp_all
  split at h <;> simp_all

/-- Witness for `context_requests_shadow`: the GET context-read route
does fire for an ordinary embed id, which is then provably not
`requests`. -/
theorem context_requests_shadow_wit :
    dispatch Method.get ["api", "context", "abc"] = some (RouteMatch.getCtx "abc")
    ∧ "abc" ≠ "requests" :=
  ⟨by decide, context_requests_shadow.2.2.2 "abc" ["api", "context", "abc"] (by decide)⟩

end PtyServer
